import Mathlib

/-!
Verification of the market-depth state engine of the FST trading platform,
a shallow embedding of the order-book component
(src/ui/web/static/js/components/orderbook.js) and of the last-price
direction logic of the trade-history component.

Modelling conventions:
* JavaScript numbers (float64) are modelled by `JNum`: an exact rational
  together with NaN and the two infinities.  Rounding of float64 arithmetic
  is not modelled; the negative zero is identified with zero.  All the
  operations used by the component (comparison, addition, subtraction,
  multiplication, division) are defined with IEEE special-value semantics.
* `Array.prototype.sort` with a numeric comparator is modelled as a stable
  insertion sort (`jsSort`).  ES2019 requires the sort to be stable, and for
  a consistent comparator the stable sorted permutation is unique, so any
  conforming engine agrees with this model; for an inconsistent comparator
  (one that returns NaN, which SortCompare treats as 0) the result is
  implementation-defined and this model fixes one conforming behaviour.
* DOM construction and rendering are outside the model; only the data state
  of the components is represented.
-/

/-- Addition on ℚ through the normalising smart constructor (equal to `+`,
but kernel-reducible, so that concrete runs of the model can be checked by
`decide`). -/
def qadd (a b : ℚ) : ℚ := mkRat (a.num * b.den + b.num * a.den) (a.den * b.den)

/-- Multiplication on ℚ through the normalising smart constructor (equal to
`*`, but kernel-reducible). -/
def qmul (a b : ℚ) : ℚ := mkRat (a.num * b.num) (a.den * b.den)

/-- Inverse on ℚ through `divInt` (equal to `⁻¹`, but kernel-reducible). -/
def qinv (a : ℚ) : ℚ := Rat.divInt a.den a.num

/-- Division on ℚ (equal to `/`, but kernel-reducible). -/
def qdiv (a b : ℚ) : ℚ := qmul a (qinv b)

/-- Power on ℚ by a natural number (equal to `^`, but kernel-reducible). -/
def qpow (b : ℚ) : ℕ → ℚ
  | 0 => 1
  | n + 1 => qmul (qpow b n) b

/-- Power on ℚ by an integer (equal to `^` with `zpow`). -/
def qzpow (b : ℚ) (e : ℤ) : ℚ :=
  if 0 ≤ e then qpow b e.toNat else qinv (qpow b (-e).toNat)

/-- A JavaScript number: NaN, +Infinity, -Infinity, or a finite value
(modelled exactly as a rational; float64 rounding and -0 are not modelled). -/
inductive JNum where
  | nan : JNum
  | inf : JNum
  | ninf : JNum
  | num : ℚ → JNum
deriving DecidableEq

/-- JavaScript truthiness of a number: NaN and 0 are falsy. -/
def JNum.truthy : JNum → Bool
  | .nan => false
  | .num q => decide (q ≠ 0)
  | _ => true

/-- JavaScript strict less-than on numbers: any comparison with NaN is false. -/
def jlt : JNum → JNum → Bool
  | .nan, _ => false
  | _, .nan => false
  | .ninf, .ninf => false
  | .ninf, _ => true
  | _, .ninf => false
  | .inf, _ => false
  | .num _, .inf => true
  | .num a, .num b => decide (a < b)

/-- JavaScript strict greater-than on numbers (`a > b` is `b < a`). -/
def jgt (a b : JNum) : Bool := jlt b a

/-- JavaScript less-or-equal on numbers: any comparison with NaN is false. -/
def jsle : JNum → JNum → Bool
  | .nan, _ => false
  | _, .nan => false
  | .ninf, _ => true
  | _, .ninf => false
  | _, .inf => true
  | .inf, _ => false
  | .num a, .num b => decide (a ≤ b)

/-- IEEE negation. -/
def jneg : JNum → JNum
  | .nan => .nan
  | .inf => .ninf
  | .ninf => .inf
  | .num q => .num (-q)

/-- IEEE addition (exact on finite values). -/
def jadd : JNum → JNum → JNum
  | .nan, _ => .nan
  | _, .nan => .nan
  | .inf, .ninf => .nan
  | .ninf, .inf => .nan
  | .inf, _ => .inf
  | _, .inf => .inf
  | .ninf, _ => .ninf
  | _, .ninf => .ninf
  | .num a, .num b => .num (qadd a b)

/-- IEEE subtraction, as addition of the negation. -/
def jsub (a b : JNum) : JNum := jadd a (jneg b)

/-- IEEE multiplication (exact on finite values). -/
def jmul : JNum → JNum → JNum
  | .nan, _ => .nan
  | _, .nan => .nan
  | .inf, .inf => .inf
  | .inf, .ninf => .ninf
  | .ninf, .inf => .ninf
  | .ninf, .ninf => .inf
  | .inf, .num b => if b = 0 then .nan else if 0 < b then .inf else .ninf
  | .num a, .inf => if a = 0 then .nan else if 0 < a then .inf else .ninf
  | .ninf, .num b => if b = 0 then .nan else if 0 < b then .ninf else .inf
  | .num a, .ninf => if a = 0 then .nan else if 0 < a then .ninf else .inf
  | .num a, .num b => .num (qmul a b)

/-- IEEE division (exact on finite values; division by zero yields an
infinity of the numerator's sign, and 0/0 yields NaN; the zero divisor is
treated as +0 since -0 is not modelled). -/
def jdiv : JNum → JNum → JNum
  | .nan, _ => .nan
  | _, .nan => .nan
  | .inf, .inf => .nan
  | .inf, .ninf => .nan
  | .ninf, .inf => .nan
  | .ninf, .ninf => .nan
  | .inf, .num b => if 0 ≤ b then .inf else .ninf
  | .ninf, .num b => if 0 ≤ b then .ninf else .inf
  | .num _, .inf => .num 0
  | .num _, .ninf => .num 0
  | .num a, .num b =>
      if b = 0 then (if a = 0 then .nan else if 0 < a then .inf else .ninf)
      else .num (qdiv a b)

/-- A JavaScript value as far as the component inspects one: `undefined`
(also standing for an absent field), a number, or a string. -/
inductive JVal where
  | undefined : JVal
  | jnum : JNum → JVal
  | jstr : String → JVal
deriving DecidableEq

/-- JavaScript truthiness: `undefined`, `NaN`, `0` and the empty string are
falsy. -/
def JVal.truthy : JVal → Bool
  | .undefined => false
  | .jnum n => n.truthy
  | .jstr s => decide (s ≠ "")

/-- The JavaScript `a || b` operator restricted to value selection. -/
def jsOr (a b : JVal) : JVal := if a.truthy then a else b

/-- Numeric value of a list of decimal digit characters. -/
def digitsToNat (cs : List Char) : ℕ :=
  cs.foldl (fun n c => 10 * n + (c.toNat - 48)) 0

/-- Parse the longest decimal-literal prefix (digits, optional fraction,
optional exponent), as the ES `parseFloat` grammar does after the sign;
returns `none` when no digits are found. -/
def jsParseUnsigned (cs : List Char) : Option ℚ :=
  let ip := cs.takeWhile Char.isDigit
  let rest₁ := cs.dropWhile Char.isDigit
  let fp :=
    match rest₁ with
    | '.' :: r => r.takeWhile Char.isDigit
    | _ => []
  let rest₂ :=
    match rest₁ with
    | '.' :: r => r.dropWhile Char.isDigit
    | _ => rest₁
  if ip.isEmpty ∧ fp.isEmpty then none
  else
    let mant : ℚ := qadd (digitsToNat ip : ℚ) (qdiv (digitsToNat fp : ℚ) (qpow 10 fp.length))
    let e : ℤ :=
      match rest₂ with
      | c :: r =>
          if c = 'e' ∨ c = 'E' then
            let sgn : ℤ := match r with | '-' :: _ => -1 | _ => 1
            let r₂ := match r with | '+' :: t => t | '-' :: t => t | _ => r
            let ed := r₂.takeWhile Char.isDigit
            if ed.isEmpty then 0 else sgn * (digitsToNat ed : ℤ)
          else 0
      | [] => 0
    some (qmul mant (qzpow 10 e))

/-- The ES `parseFloat` on a string: skip leading whitespace, read an
optional sign, accept `Infinity` or the longest decimal-literal prefix,
and return NaN when nothing parses. -/
def jsParseFloatStr (s : String) : JNum :=
  let cs := s.data.dropWhile Char.isWhitespace
  let neg : Bool := match cs with | '-' :: _ => true | _ => false
  let cs₂ := match cs with | '-' :: r => r | '+' :: r => r | _ => cs
  if ("Infinity".data).isPrefixOf cs₂ then (if neg then .ninf else .inf)
  else
    match jsParseUnsigned cs₂ with
    | some q => .num (if neg then -q else q)
    | none => .nan

/-- The ES `parseFloat` on a value: `undefined` stringifies to a non-numeric
string hence NaN, and a number round-trips through its string form. -/
def jsParseFloat : JVal → JNum
  | .undefined => .nan
  | .jnum n => n
  | .jstr s => jsParseFloatStr s

/-- A raw depth entry as received by `_processDepthData`: a positional
array, an object carrying the known field aliases (absent fields are
`undefined`), or any other value (`typeof` neither array nor object). -/
inductive RawEntry where
  | pair : List JVal → RawEntry
  | obj : JVal → JVal → JVal → JVal → JVal → JVal → RawEntry
  | other : RawEntry
deriving DecidableEq

/-- The level normalisation step of `_processDepthData`: destructure
`[price, quantity]` from an array, or read `price || p` and
`quantity || q || amount || a` from an object, then `parseFloat` both. -/
def normalizeEntry : RawEntry → List JNum
  | .pair l => [jsParseFloat (l.getD 0 .undefined), jsParseFloat (l.getD 1 .undefined)]
  | .obj price p quantity q amount a =>
      [jsParseFloat (jsOr price p),
       jsParseFloat (jsOr quantity (jsOr q (jsOr amount a)))]
  | .other => [.nan, .nan]

/-- The price slot `item[0]` of a processed level (undefined reads as NaN
after any arithmetic use). -/
def priceOf (item : List JNum) : JNum := item.getD 0 .nan

/-- The quantity slot `item[1]` of a processed level. -/
def quantityOf (item : List JNum) : JNum := item.getD 1 .nan

/-- One step of the stable insertion sort modelling `Array.prototype.sort`:
the new element is placed after every element `b` with `le b a`. -/
def jsSortInsert (le : α → α → Bool) (a : α) : List α → List α
  | [] => [a]
  | b :: bs => if le b a then b :: jsSortInsert le a bs else a :: b :: bs

/-- Stable sort modelling `Array.prototype.sort` (see the header comment):
elements are inserted left to right, each landing after its equals. -/
def jsSort (le : α → α → Bool) (l : List α) : List α :=
  l.foldl (fun acc a => jsSortInsert le a acc) []

/-- The comparator of `_processDepthData`: `b[0] - a[0]` for bids
(descending) and `a[0] - b[0]` for asks (ascending), in IEEE arithmetic. -/
def levelCmp (isBids : Bool) (x y : List JNum) : JNum :=
  if isBids then jsub (priceOf y) (priceOf x) else jsub (priceOf x) (priceOf y)

/-- The ES SortCompare interpretation of a comparator result: a NaN result
is treated as 0, so it orders like a non-positive value. -/
def sortCompareLe (c : JNum) : Bool :=
  match c with
  | .nan => true
  | .inf => false
  | .ninf => true
  | .num q => decide (q ≤ 0)

/-- The sort order used on one side: `x` may stay before `y` exactly when
the comparator result is not positive. -/
def levelLe (isBids : Bool) (x y : List JNum) : Bool :=
  sortCompareLe (levelCmp isBids x y)

/-- The JavaScript `slice(0, n)` on arrays: a negative end counts from the
end of the array. -/
def jsSliceTo (n : ℤ) (l : List α) : List α :=
  if n < 0 then l.take ((l.length : ℤ) + n).toNat else l.take n.toNat

/-- The configuration options of the order book that affect the data model
(`maxRows`; the remaining options only affect rendering and are omitted).
`maxRows` is kept as an integer exactly as stored. -/
structure OBOptions where
  maxRows : ℤ
deriving DecidableEq

/-- The defaults of the constructor (`maxRows: 15`). -/
def defaultOptions : OBOptions := ⟨15⟩

/-- An options patch for `updateOptions` (an absent field keeps the old
value, as `Object.assign` does). -/
structure OBOptionsPatch where
  maxRows : Option ℤ
deriving DecidableEq

/-- The `updateOptions` merge: `Object.assign(this.options, options)`.
No validation or coercion of any field is performed. -/
def updateOptions (o : OBOptions) (p : OBOptionsPatch) : OBOptions :=
  { maxRows := p.maxRows.getD o.maxRows }

/-- The value found at `data.bids` / `data.asks`: the field may be absent
(or otherwise falsy, in which case `update` skips the side), an array of
raw entries, or a truthy non-array (which `Array.isArray` rejects). -/
inductive SideField where
  | absent : SideField
  | arr : List RawEntry → SideField
  | junk : SideField
deriving DecidableEq

/-- A raw book update as consumed by `update` (field absent = `none`;
`lastUpdateId` is modelled as a number when present). -/
structure RawUpdate where
  lastUpdateId : Option JNum
  bids : SideField
  asks : SideField
deriving DecidableEq

/-- The data state of the order-book component: both ladders (levels are
JavaScript arrays of numbers, hence lists), the last update id and the
four statistics. -/
structure OBState where
  bids : List (List JNum)
  asks : List (List JNum)
  lastUpdateId : JNum
  spreadValue : JNum
  spreadPercent : JNum
  totalBidVolume : JNum
  totalAskVolume : JNum
deriving DecidableEq

/-- The state right after construction. -/
def initialState : OBState :=
  { bids := [], asks := [], lastUpdateId := .num 0, spreadValue := .num 0,
    spreadPercent := .num 0, totalBidVolume := .num 0, totalAskVolume := .num 0 }

/-- The `_processDepthData` pipeline: reject non-arrays, normalise every
entry, keep entries with `item[1] > 0`, sort with the side comparator and
truncate with `slice(0, maxRows)`. -/
def processDepthData (o : OBOptions) (data : SideField) (isBids : Bool) :
    List (List JNum) :=
  match data with
  | .arr entries =>
      let processed := entries.map normalizeEntry
      let filtered := processed.filter (fun it => jgt (quantityOf it) (.num 0))
      let sorted := jsSort (levelLe isBids) filtered
      jsSliceTo o.maxRows sorted
  | _ => []

/-- The cumulative-attachment loop of `_calculateStats`: a running total of
`item[1]` is appended to every level (`[...item, total]`). -/
def appendCumAux (acc : JNum) : List (List JNum) → List (List JNum)
  | [] => []
  | item :: rest =>
      let acc' := jadd acc (quantityOf item)
      (item ++ [acc']) :: appendCumAux acc' rest

/-- The running totals attached by `appendCumAux`, as a plain list. -/
def cumVals (acc : JNum) : List (List JNum) → List JNum
  | [] => []
  | item :: rest =>
      let acc' := jadd acc (quantityOf item)
      acc' :: cumVals acc' rest

/-- The `_calculateStats` step: spread and relative spread from the two
best levels when both sides are non-empty (no zero-divisor guard in the
source), total volumes by reduction over `item[1]`, and the cumulative
column appended to both ladders. -/
def calculateStats (s : OBState) : OBState :=
  let lowestAsk := priceOf (s.asks.headD [])
  let highestBid := priceOf (s.bids.headD [])
  let both := 0 < s.asks.length ∧ 0 < s.bids.length
  { s with
    spreadValue := if both then jsub lowestAsk highestBid else .num 0
    spreadPercent :=
      if both then jmul (jdiv (jsub lowestAsk highestBid) lowestAsk) (.num 100)
      else .num 0
    totalBidVolume := s.bids.foldl (fun sum it => jadd sum (quantityOf it)) (.num 0)
    totalAskVolume := s.asks.foldl (fun sum it => jadd sum (quantityOf it)) (.num 0)
    bids := appendCumAux (.num 0) s.bids
    asks := appendCumAux (.num 0) s.asks }

/-- The `update` operation: return unchanged on a falsy argument, record a
truthy, strictly newer `lastUpdateId`, rebuild each side whose field is
truthy (retaining the other), and recompute the statistics. -/
def update (o : OBOptions) (data : Option RawUpdate) (s : OBState) : OBState :=
  match data with
  | none => s
  | some d =>
      let lid :=
        match d.lastUpdateId with
        | some n => if n.truthy && jgt n s.lastUpdateId then n else s.lastUpdateId
        | none => s.lastUpdateId
      let bids := match d.bids with
        | .absent => s.bids
        | sf => processDepthData o sf true
      let asks := match d.asks with
        | .absent => s.asks
        | sf => processDepthData o sf false
      calculateStats { s with lastUpdateId := lid, bids := bids, asks := asks }

/-- The most recently appended cumulative of a materialised level (its last
slot). -/
def lastOf (item : List JNum) : JNum := item.getLastD .nan

/-- A level whose quantity slot passes the `item[1] > 0` comparison (this
also forces the level to have at least two slots). -/
def GoodLevel (item : List JNum) : Prop := jgt (quantityOf item) (.num 0) = true

/-- Every level of both stored ladders passes the quantity filter. -/
def InvQ (s : OBState) : Prop :=
  (∀ it ∈ s.bids, GoodLevel it) ∧ (∀ it ∈ s.asks, GoodLevel it)

/-- A running total that is a non-negative finite value or +Infinity. -/
def NonNegJ (a : JNum) : Prop := a = .inf ∨ ∃ q : ℚ, 0 ≤ q ∧ a = .num q

/-- The states the component can actually be in: the constructor state and
anything reachable from it through `update` calls (under any options). -/
inductive ReachableOB : OBState → Prop where
  | init : ReachableOB initialState
  | step (o : OBOptions) (d : Option RawUpdate) {s : OBState} :
      ReachableOB s → ReachableOB (update o d s)

/-- A raw trade as far as the price extraction inspects it: the `price` and
`p` fields (absent fields are `undefined`). -/
structure RawTrade where
  price : JVal
  p : JVal
deriving DecidableEq

/-- The `_getTradePrice` helper: `trade.price || trade.p`, passed through
unchanged when already a number and through `parseFloat` otherwise. -/
def getTradePrice (t : RawTrade) : JNum :=
  match jsOr t.price t.p with
  | .jnum n => n
  | v => jsParseFloat v

/-- The data state of the trade-history component relevant to the
last-price direction: the recorded trade prices (newest first) and the
`lastPrice` reference. -/
structure THState where
  trades : List JNum
  lastPrice : Option JNum
deriving DecidableEq

/-- The trade-history state right after construction. -/
def thInitial : THState := { trades := [], lastPrice := none }

/-- The direction class computed by `_renderNewTrade` for the new row:
nothing without a prior price, otherwise up on a strict rise, down on a
strict fall, and nothing on an equal price. -/
inductive PriceDir where
  | up : PriceDir
  | down : PriceDir
deriving DecidableEq

/-- The `_renderNewTrade` price-direction computation (with the default
`priceChangeColors: true`). -/
def renderDirection (lastPrice : Option JNum) (p : JNum) : Option PriceDir :=
  match lastPrice with
  | none => none
  | some lp => if jgt p lp then some .up else if jlt p lp then some .down else none

/-- The `addTrade` operation restricted to the modelled state, paired with
the direction class rendered for the new row (with the default options
`autoUpdate: true` and page 1, `_renderNewTrade` always runs): a falsy
trade returns unchanged; otherwise `lastPrice` is set to the price of the
previous newest trade, the new price is pushed to the front, and the list
is capped at `maxRows` by popping the oldest entry. -/
def addTrade (maxRows : ℕ) (t : Option RawTrade) (s : THState) :
    THState × Option PriceDir :=
  match t with
  | none => (s, none)
  | some tr =>
      let p := getTradePrice tr
      let lp : Option JNum := match s.trades with
        | [] => none
        | tp :: _ => some tp
      let ts := p :: s.trades
      let ts' := if maxRows < ts.length then ts.dropLast else ts
      ({ trades := ts', lastPrice := lp }, renderDirection lp p)

/-! ### Concrete feed inputs used to exercise the model -/

/-- A finite numeric JavaScript value. -/
def jnumV (q : ℚ) : JVal := JVal.jnum (.num q)

/-- A positional raw level `[price, quantity]` with numeric entries. -/
def pairEntry (p q : ℚ) : RawEntry := .pair [jnumV p, jnumV q]

/-- An object raw level carrying only a `q` field (so its price parses to
NaN). -/
def qtyOnlyEntry (q : ℚ) : RawEntry := .obj .undefined .undefined .undefined (jnumV q) .undefined .undefined

/-- The spread example: bids `[[100,1],[99,2]]`, asks `[[101,1],[102,2]]`. -/
def exampleUpdate : RawUpdate :=
  ⟨none, .arr [pairEntry 100 1, pairEntry 99 2], .arr [pairEntry 101 1, pairEntry 102 2]⟩

/-- A bids-only update whose single entry has a NaN price and quantity 1. -/
def nanPriceUpdate : RawUpdate := ⟨none, .arr [qtyOnlyEntry 1], .absent⟩

/-- Bids `[[1,1]]` against asks `[[0,1]]` (a zero best ask). -/
def zeroAskUpdate : RawUpdate := ⟨none, .arr [pairEntry 1 1], .arr [pairEntry 0 1]⟩

/-- A two-sided snapshot: bids `[[1,1]]`, asks `[[2,1]]`. -/
def partialSetupUpdate : RawUpdate := ⟨none, .arr [pairEntry 1 1], .arr [pairEntry 2 1]⟩

/-- A bids-only update `{bids:[[50,1]]}` omitting the asks array. -/
def partialBidsUpdate : RawUpdate := ⟨none, .arr [pairEntry 50 1], .absent⟩

/-- An asks-only update whose first entry has a NaN price before a priced one. -/
def nanAskSortUpdate : RawUpdate := ⟨none, .absent, .arr [qtyOnlyEntry 1, pairEntry 3 1]⟩

/-- A bids-only update with the single valid level `[1,1]`. -/
def singleBidUpdate : RawUpdate := ⟨none, .arr [pairEntry 1 1], .absent⟩

/-- A bids-only update carrying `lastUpdateId: 7`. -/
def idUpdate : RawUpdate := ⟨some (.num 7), .arr [pairEntry 1 1], .absent⟩

/-- A trade whose price field is the number 100. -/
def trade100 : RawTrade := ⟨jnumV 100, .undefined⟩

/-- A trade whose price field is the number 105. -/
def trade105 : RawTrade := ⟨jnumV 105, .undefined⟩

/-! ### Bridging the kernel-reducible rational operations to Mathlib's -/

theorem qadd_eq_add (a b : ℚ) : qadd a b = a + b := (Rat.add_def' a b).symm

theorem qmul_eq_mul (a b : ℚ) : qmul a b = a * b := by
  rw [qmul, Rat.mul_def, Rat.normalize_eq_mkRat]

theorem qinv_eq_inv (a : ℚ) : qinv a = a⁻¹ := by
  rw [qinv, ← Rat.inv_def]; rfl

theorem qdiv_eq_div (a b : ℚ) : qdiv a b = a / b := by
  rw [qdiv, qmul_eq_mul, qinv_eq_inv, Rat.div_def]; rfl

/-! ### Order lemmas for the IEEE comparisons -/

theorem jsle_trans {a b c : JNum} (h1 : jsle a b = true) (h2 : jsle b c = true) :
    jsle a c = true := by
  cases a <;> cases b <;> cases c <;> simp_all [jsle] <;> exact le_trans h1 h2

theorem jsle_total_of_ne_nan {a b : JNum} (ha : a ≠ .nan) (hb : b ≠ .nan) :
    jsle a b = true ∨ jsle b a = true := by
  cases a <;> cases b <;> simp_all [jsle] <;> exact le_total _ _

theorem sortCompareLe_jsub {u v : JNum} (hu : u ≠ .nan) (hv : v ≠ .nan) :
    sortCompareLe (jsub u v) = jsle u v := by
  cases u <;> cases v <;>
    simp_all [jsub, jneg, jadd, sortCompareLe, jsle, qadd_eq_add, ← sub_eq_add_neg,
      sub_nonpos]

/-! ### The stable insertion sort: permutation, sortedness, stability -/

theorem jsSortInsert_eq {α : Type} (le : α → α → Bool) (a : α) (l : List α) :
    jsSortInsert le a l
      = l.takeWhile (fun b => le b a) ++ a :: l.dropWhile (fun b => le b a) := by
  induction l with
  | nil => simp [jsSortInsert]
  | cons b bs ih =>
      by_cases h : le b a
      · simp [jsSortInsert, h, List.takeWhile_cons, List.dropWhile_cons, ih]
      · simp [jsSortInsert, h, List.takeWhile_cons, List.dropWhile_cons]

theorem jsSortInsert_perm {α : Type} (le : α → α → Bool) (a : α) (l : List α) :
    List.Perm (jsSortInsert le a l) (a :: l) := by
  rw [jsSortInsert_eq]
  have h : List.Perm
      (l.takeWhile (fun b => le b a) ++ a :: l.dropWhile (fun b => le b a))
      (a :: (l.takeWhile (fun b => le b a) ++ l.dropWhile (fun b => le b a))) :=
    List.perm_middle
  rwa [List.takeWhile_append_dropWhile] at h

theorem mem_jsSortInsert {α : Type} {le : α → α → Bool} {a x : α} {l : List α} :
    x ∈ jsSortInsert le a l ↔ x = a ∨ x ∈ l := by
  rw [(jsSortInsert_perm le a l).mem_iff, List.mem_cons]

theorem jsSort_foldl_perm {α : Type} (le : α → α → Bool) :
    ∀ (l acc : List α),
      List.Perm (List.foldl (fun acc a => jsSortInsert le a acc) acc l) (acc ++ l) := by
  intro l
  induction l with
  | nil => intro acc; simp
  | cons x l ih =>
      intro acc
      have h1 := ih (jsSortInsert le x acc)
      have h2 := (jsSortInsert_perm le x acc).append_right l
      have h3 : List.Perm ((x :: acc) ++ l) (acc ++ x :: l) := List.perm_middle.symm
      exact (h1.trans h2).trans h3

theorem jsSort_perm {α : Type} (le : α → α → Bool) (l : List α) :
    List.Perm (jsSort le l) l := by
  simpa using jsSort_foldl_perm le l []

theorem mem_jsSort {α : Type} {le : α → α → Bool} {x : α} {l : List α} :
    x ∈ jsSort le l ↔ x ∈ l := (jsSort_perm le l).mem_iff

theorem dropWhile_head_false {α : Type} {p : α → Bool} :
    ∀ {l : List α} {w : α} {rest : List α}, l.dropWhile p = w :: rest → p w = false := by
  intro l
  induction l with
  | nil => intro w rest h; simp [List.dropWhile] at h
  | cons a l ih =>
      intro w rest h
      rw [List.dropWhile_cons] at h
      by_cases hpa : p a
      · exact ih (by simpa [hpa] using h)
      · have : a = w := by simpa [hpa] using congrArg List.head? h
        subst this
        simpa using hpa

theorem pairwise_jsSortInsert {α : Type} (le : α → α → Bool) (P : α → Prop)
    (htrans : ∀ x y z, P x → P y → P z → le x y = true → le y z = true → le x z = true)
    (htot : ∀ x y, P x → P y → le x y = true ∨ le y x = true)
    {a : α} {l : List α} (ha : P a) (hl : ∀ x ∈ l, P x)
    (h : List.Pairwise (fun x y => le x y = true) l) :
    List.Pairwise (fun x y => le x y = true) (jsSortInsert le a l) := by
  induction l with
  | nil => simp [jsSortInsert]
  | cons b bs ih =>
      rw [List.pairwise_cons] at h
      by_cases hba : le b a = true
      · rw [show jsSortInsert le a (b :: bs) = b :: jsSortInsert le a bs by
          simp [jsSortInsert, hba]]
        refine List.pairwise_cons.mpr ⟨?_, ih (fun x hx => hl x (List.mem_cons_of_mem b hx)) h.2⟩
        intro x hx
        rcases mem_jsSortInsert.mp hx with rfl | hx
        · exact hba
        · exact h.1 x hx
      · rw [show jsSortInsert le a (b :: bs) = a :: b :: bs by
          simp [jsSortInsert, hba]]
        have hab : le a b = true := by
          rcases htot a b ha (hl b (List.mem_cons_self b bs)) with h' | h'
          · exact h'
          · exact absurd h' hba
        refine List.pairwise_cons.mpr ⟨?_, List.pairwise_cons.mpr ⟨h.1, h.2⟩⟩
        intro x hx
        rcases List.mem_cons.mp hx with rfl | hx
        · exact hab
        · exact htrans a b x ha (hl b (List.mem_cons_self b bs))
            (hl x (List.mem_cons_of_mem b hx)) hab (h.1 x hx)

theorem pairwise_jsSort {α : Type} (le : α → α → Bool) (P : α → Prop)
    (htrans : ∀ x y z, P x → P y → P z → le x y = true → le y z = true → le x z = true)
    (htot : ∀ x y, P x → P y → le x y = true ∨ le y x = true)
    {l : List α} (hl : ∀ x ∈ l, P x) :
    List.Pairwise (fun x y => le x y = true) (jsSort le l) := by
  suffices h : ∀ (l acc : List α), (∀ x ∈ l, P x) → (∀ x ∈ acc, P x) →
      List.Pairwise (fun x y => le x y = true) acc →
      List.Pairwise (fun x y => le x y = true)
        (List.foldl (fun acc a => jsSortInsert le a acc) acc l) by
    exact h l [] hl (by simp) (by simp)
  intro l
  induction l with
  | nil => intro acc _ _ hp; simpa using hp
  | cons x l ih =>
      intro acc hxl hacc hp
      rw [List.foldl_cons]
      refine ih (jsSortInsert le x acc)
        (fun y hy => hxl y (List.mem_cons_of_mem x hy)) (fun y hy => ?_) ?_
      · rcases mem_jsSortInsert.mp hy with rfl | hy
        · exact hxl _ (List.mem_cons_self _ _)
        · exact hacc y hy
      · exact pairwise_jsSortInsert le P htrans htot
          (hxl x (List.mem_cons_self x l)) hacc hp

theorem filter_jsSortInsert_ne {α β : Type} [DecidableEq β] (le : α → α → Bool)
    (k : α → β) {a : α} {l : List α} {p : β} (hne : ¬ k a = p) :
    (jsSortInsert le a l).filter (fun x => decide (k x = p))
      = l.filter (fun x => decide (k x = p)) := by
  rw [jsSortInsert_eq, List.filter_append, List.filter_cons]
  simp only [hne, decide_False, Bool.false_eq_true, if_false]
  rw [← List.filter_append, List.takeWhile_append_dropWhile]

theorem filter_jsSortInsert_eq_key {α β : Type} [DecidableEq β] (le : α → α → Bool)
    (P : α → Prop) (k : α → β)
    (htrans : ∀ x y z, P x → P y → P z → le x y = true → le y z = true → le x z = true)
    (hkeq : ∀ x y, k x = k y → le x y = true)
    {a : α} {l : List α} {p : β} (ha : P a) (hl : ∀ x ∈ l, P x)
    (hp : k a = p) (hsort : List.Pairwise (fun x y => le x y = true) l) :
    (jsSortInsert le a l).filter (fun x => decide (k x = p))
      = l.filter (fun x => decide (k x = p)) ++ [a] := by
  have hd : (l.dropWhile (fun b => le b a)).filter (fun x => decide (k x = p)) = [] := by
    rcases hdrop : l.dropWhile (fun b => le b a) with _ | ⟨w, rest⟩
    · simp
    · have hw : le w a = false := dropWhile_head_false (p := fun b => le b a) hdrop
      rw [← hdrop]
      rw [List.filter_eq_nil_iff]
      intro c hc
      simp only [decide_eq_true_eq]
      intro hkc
      have hcl : c ∈ l := (List.dropWhile_sublist _).subset hc
      have hca : le c a = true := hkeq c a (by rw [hkc, hp])
      rw [hdrop] at hc
      rcases List.mem_cons.mp hc with rfl | hcr
      · rw [hca] at hw; cases hw
      · have hpair : List.Pairwise (fun x y => le x y = true) (w :: rest) := by
          rw [← hdrop]
          exact hsort.sublist (List.dropWhile_sublist _)
        have hwc : le w c = true := (List.pairwise_cons.mp hpair).1 c hcr
        have hwl : w ∈ l := (List.dropWhile_sublist (fun b => le b a)).subset
          (hdrop ▸ List.mem_cons_self w rest)
        have : le w a = true := htrans w c a (hl w hwl) (hl c hcl) ha hwc hca
        rw [this] at hw; cases hw
  rw [jsSortInsert_eq, List.filter_append, List.filter_cons]
  simp only [hp, decide_True, if_true]
  rw [hd]
  conv_rhs => rw [← List.takeWhile_append_dropWhile (p := fun b => le b a) (l := l)]
  rw [List.filter_append, hd]
  simp

theorem filter_jsSort {α β : Type} [DecidableEq β] (le : α → α → Bool)
    (P : α → Prop) (k : α → β)
    (htrans : ∀ x y z, P x → P y → P z → le x y = true → le y z = true → le x z = true)
    (htot : ∀ x y, P x → P y → le x y = true ∨ le y x = true)
    (hkeq : ∀ x y, k x = k y → le x y = true)
    {l : List α} {p : β} (hl : ∀ x ∈ l, P x) :
    (jsSort le l).filter (fun x => decide (k x = p))
      = l.filter (fun x => decide (k x = p)) := by
  suffices h : ∀ (l acc : List α), (∀ x ∈ l, P x) → (∀ x ∈ acc, P x) →
      List.Pairwise (fun x y => le x y = true) acc →
      (List.foldl (fun acc a => jsSortInsert le a acc) acc l).filter
          (fun x => decide (k x = p))
        = acc.filter (fun x => decide (k x = p))
          ++ l.filter (fun x => decide (k x = p)) by
    have h' := h l [] hl (by simp) (by simp)
    simpa [jsSort] using h'
  intro l
  induction l with
  | nil => intro acc _ _ _; simp
  | cons x l ih =>
      intro acc hxl hacc hp
      rw [List.foldl_cons]
      rw [ih (jsSortInsert le x acc)
        (fun y hy => hxl y (List.mem_cons_of_mem x hy))
        (fun y hy => by
          rcases mem_jsSortInsert.mp hy with rfl | hy
          · exact hxl _ (List.mem_cons_self _ _)
          · exact hacc y hy)
        (pairwise_jsSortInsert le P htrans htot (hxl x (List.mem_cons_self x l)) hacc hp)]
      by_cases hkx : k x = p
      · rw [filter_jsSortInsert_eq_key le P k htrans hkeq
          (hxl x (List.mem_cons_self x l)) hacc hkx hp]
        rw [List.filter_cons]
        simp [hkx, List.append_assoc]
      · rw [filter_jsSortInsert_ne le k hkx]
        rw [List.filter_cons]
        simp [hkx]

/-! ### The side comparators as order relations on non-NaN prices -/

theorem sortCompareLe_jsub_self (u : JNum) : sortCompareLe (jsub u u) = true := by
  cases u <;> simp [jsub, jneg, jadd, sortCompareLe, qadd_eq_add]

theorem levelLe_false_eq {x y : List JNum} (hx : priceOf x ≠ .nan)
    (hy : priceOf y ≠ .nan) : levelLe false x y = jsle (priceOf x) (priceOf y) := by
  rw [levelLe, levelCmp, if_neg (by simp)]
  exact sortCompareLe_jsub hx hy

theorem levelLe_true_eq {x y : List JNum} (hx : priceOf x ≠ .nan)
    (hy : priceOf y ≠ .nan) : levelLe true x y = jsle (priceOf y) (priceOf x) := by
  rw [levelLe, levelCmp, if_pos rfl]
  exact sortCompareLe_jsub hy hx

theorem levelLe_of_price_eq (isBids : Bool) {x y : List JNum}
    (h : priceOf x = priceOf y) : levelLe isBids x y = true := by
  cases isBids
  · rw [levelLe, levelCmp, if_neg (by simp), h]
    exact sortCompareLe_jsub_self _
  · rw [levelLe, levelCmp, if_pos rfl, h]
    exact sortCompareLe_jsub_self _

theorem levelLe_trans (isBids : Bool) :
    ∀ x y z : List JNum, priceOf x ≠ .nan → priceOf y ≠ .nan → priceOf z ≠ .nan →
      levelLe isBids x y = true → levelLe isBids y z = true →
      levelLe isBids x z = true := by
  intro x y z hx hy hz h1 h2
  cases isBids
  · rw [levelLe_false_eq hx hy] at h1
    rw [levelLe_false_eq hy hz] at h2
    rw [levelLe_false_eq hx hz]
    exact jsle_trans h1 h2
  · rw [levelLe_true_eq hx hy] at h1
    rw [levelLe_true_eq hy hz] at h2
    rw [levelLe_true_eq hx hz]
    exact jsle_trans h2 h1

theorem levelLe_total (isBids : Bool) :
    ∀ x y : List JNum, priceOf x ≠ .nan → priceOf y ≠ .nan →
      levelLe isBids x y = true ∨ levelLe isBids y x = true := by
  intro x y hx hy
  cases isBids
  · rw [levelLe_false_eq hx hy, levelLe_false_eq hy hx]
    exact jsle_total_of_ne_nan hx hy
  · rw [levelLe_true_eq hx hy, levelLe_true_eq hy hx]
    exact jsle_total_of_ne_nan hy hx

/-! ### Ladder-builder facts -/

theorem normalizeEntry_length (e : RawEntry) : (normalizeEntry e).length = 2 := by
  cases e <;> rfl

theorem mem_of_mem_jsSliceTo {α : Type} {n : ℤ} {l : List α} {x : α}
    (h : x ∈ jsSliceTo n l) : x ∈ l := by
  rw [jsSliceTo] at h
  split at h
  · exact List.mem_of_mem_take h
  · exact List.mem_of_mem_take h

theorem mem_filtered_of_mem_processDepthData {o : OBOptions} {entries : List RawEntry}
    {isBids : Bool} {item : List JNum}
    (h : item ∈ processDepthData o (.arr entries) isBids) :
    item ∈ (entries.map normalizeEntry).filter (fun it => jgt (quantityOf it) (.num 0)) := by
  rw [processDepthData] at h
  exact mem_jsSort.mp (mem_of_mem_jsSliceTo h)

theorem goodLevel_of_mem_processDepthData {o : OBOptions} {sf : SideField}
    {isBids : Bool} {item : List JNum}
    (h : item ∈ processDepthData o sf isBids) : GoodLevel item := by
  cases sf with
  | arr entries =>
      exact List.of_mem_filter (p := fun it => jgt (quantityOf it) (JNum.num 0))
        (mem_filtered_of_mem_processDepthData h)
  | absent => simp [processDepthData] at h
  | junk => simp [processDepthData] at h

/-! ### Cumulative-column facts -/

theorem appendCumAux_length (acc : JNum) (l : List (List JNum)) :
    (appendCumAux acc l).length = l.length := by
  induction l generalizing acc with
  | nil => rfl
  | cons item rest ih => simp [appendCumAux, ih]

theorem appendCumAux_getD (l : List (List JNum)) :
    ∀ (acc : JNum) (i : ℕ), i < l.length →
      ∃ c, (appendCumAux acc l).getD i [] = l.getD i [] ++ [c] := by
  induction l with
  | nil => intro acc i h; simp at h
  | cons item rest ih =>
      intro acc i h
      cases i with
      | zero => exact ⟨jadd acc (quantityOf item), rfl⟩
      | succ j =>
          have hj : j < rest.length := by simpa using h
          simpa [appendCumAux] using ih (jadd acc (quantityOf item)) j hj

theorem mem_appendCumAux {l : List (List JNum)} {x : List JNum} :
    ∀ {acc : JNum}, x ∈ appendCumAux acc l → ∃ it ∈ l, ∃ c, x = it ++ [c] := by
  induction l with
  | nil => intro acc h; simp [appendCumAux] at h
  | cons item rest ih =>
      intro acc h
      rw [appendCumAux] at h
      rcases List.mem_cons.mp h with rfl | h
      · exact ⟨item, List.mem_cons_self _ _, _, rfl⟩
      · rcases ih h with ⟨it, hit, c, rfl⟩
        exact ⟨it, List.mem_cons_of_mem _ hit, c, rfl⟩

theorem map_lastOf_appendCumAux (l : List (List JNum)) :
    ∀ acc : JNum, (appendCumAux acc l).map lastOf = cumVals acc l := by
  induction l with
  | nil => intro acc; rfl
  | cons item rest ih =>
      intro acc
      simp only [appendCumAux, cumVals, List.map_cons, ih]
      congr 1
      rw [lastOf, List.getLastD_concat]

theorem cumVals_getLastD (l : List (List JNum)) :
    ∀ acc : JNum, (cumVals acc l).getLastD acc
      = l.foldl (fun sum it => jadd sum (quantityOf it)) acc := by
  induction l with
  | nil => intro acc; rfl
  | cons item rest ih =>
      intro acc
      rw [cumVals, List.getLastD_cons, ih, List.foldl_cons]

/-! ### Invariant: positive quantities and monotone cumulatives -/

theorem jadd_pos_step {acc q : JNum} (ha : NonNegJ acc) (hq : jgt q (.num 0) = true) :
    jsle acc (jadd acc q) = true ∧ NonNegJ (jadd acc q) := by
  have hq' : q = .inf ∨ ∃ r : ℚ, 0 < r ∧ q = .num r := by
    cases q with
    | nan => simp [jgt, jlt] at hq
    | inf => exact Or.inl rfl
    | ninf => simp [jgt, jlt] at hq
    | num r =>
        refine Or.inr ⟨r, ?_, rfl⟩
        simpa [jgt, jlt] using hq
  rcases ha with rfl | ⟨s, hs, rfl⟩
  · rcases hq' with rfl | ⟨r, hr, rfl⟩
    · exact ⟨rfl, Or.inl rfl⟩
    · exact ⟨rfl, Or.inl rfl⟩
  · rcases hq' with rfl | ⟨r, hr, rfl⟩
    · exact ⟨rfl, Or.inl rfl⟩
    · refine ⟨?_, Or.inr ⟨s + r, by linarith, by rw [jadd, qadd_eq_add]⟩⟩
      rw [jadd, qadd_eq_add, jsle]
      simpa using by linarith

theorem chain'_cumVals {l : List (List JNum)} (hl : ∀ it ∈ l, GoodLevel it) :
    ∀ {acc : JNum}, NonNegJ acc →
      List.Chain' (fun a b => jsle a b = true) (cumVals acc l) := by
  induction l with
  | nil => intro acc _; simp [cumVals]
  | cons item rest ih =>
      intro acc hacc
      have hitem : GoodLevel item := hl item (List.mem_cons_self _ _)
      have hstep := jadd_pos_step hacc hitem
      rw [cumVals]
      rcases rest with _ | ⟨y, t⟩
      · simp [cumVals]
      · have htail := ih (fun it hit => hl it (List.mem_cons_of_mem _ hit)) hstep.2
        have hy : GoodLevel y := hl y (List.mem_cons_of_mem _ (List.mem_cons_self _ _))
        have hstep2 := jadd_pos_step hstep.2 hy
        exact List.Chain'.cons (by simpa [cumVals] using hstep2.1) (by simpa [cumVals] using htail)

theorem goodLevel_length {it : List JNum} (h : GoodLevel it) : 1 < it.length := by
  by_contra hlen
  have : quantityOf it = .nan := by
    rw [quantityOf, List.getD_eq_default]
    omega
  rw [GoodLevel, this] at h
  simp [jgt, jlt] at h

theorem goodLevel_append {it : List JNum} (c : JNum) (h : GoodLevel it) :
    GoodLevel (it ++ [c]) := by
  have hlen := goodLevel_length h
  rw [GoodLevel, quantityOf, List.getD_append]
  · exact h
  · omega

theorem update_none_eq (o : OBOptions) (s : OBState) : update o none s = s := rfl

theorem update_bids_eq (o : OBOptions) (d : RawUpdate) (s : OBState) :
    (update o (some d) s).bids
      = appendCumAux (.num 0) (match d.bids with
          | SideField.absent => s.bids
          | sf => processDepthData o sf true) := rfl

theorem update_asks_eq (o : OBOptions) (d : RawUpdate) (s : OBState) :
    (update o (some d) s).asks
      = appendCumAux (.num 0) (match d.asks with
          | SideField.absent => s.asks
          | sf => processDepthData o sf false) := rfl

theorem update_lastUpdateId_eq (o : OBOptions) (d : RawUpdate) (s : OBState) :
    (update o (some d) s).lastUpdateId
      = (match d.lastUpdateId with
          | some n => if n.truthy && jgt n s.lastUpdateId then n else s.lastUpdateId
          | none => s.lastUpdateId) := rfl

theorem calculateStats_spreadValue (s : OBState) :
    (calculateStats s).spreadValue
      = (if 0 < s.asks.length ∧ 0 < s.bids.length
          then jsub (priceOf (s.asks.headD [])) (priceOf (s.bids.headD []))
          else .num 0) := rfl

theorem calculateStats_spreadPercent (s : OBState) :
    (calculateStats s).spreadPercent
      = (if 0 < s.asks.length ∧ 0 < s.bids.length
          then jmul (jdiv (jsub (priceOf (s.asks.headD [])) (priceOf (s.bids.headD [])))
            (priceOf (s.asks.headD []))) (.num 100)
          else .num 0) := rfl

theorem calculateStats_totalBidVolume (s : OBState) :
    (calculateStats s).totalBidVolume
      = s.bids.foldl (fun sum it => jadd sum (quantityOf it)) (.num 0) := rfl

theorem calculateStats_totalAskVolume (s : OBState) :
    (calculateStats s).totalAskVolume
      = s.asks.foldl (fun sum it => jadd sum (quantityOf it)) (.num 0) := rfl

theorem goodLevel_of_mem_side {o : OBOptions} {sf : SideField}
    {prev : List (List JNum)} {isBids : Bool}
    (hprev : ∀ it ∈ prev, GoodLevel it) :
    ∀ it ∈ (match sf with
      | SideField.absent => prev
      | sf => processDepthData o sf isBids), GoodLevel it := by
  intro it hit
  cases sf with
  | absent => exact hprev it hit
  | arr entries => exact goodLevel_of_mem_processDepthData hit
  | junk => exact goodLevel_of_mem_processDepthData hit

theorem invQ_update {s : OBState} (h : InvQ s) (o : OBOptions) (d : Option RawUpdate) :
    InvQ (update o d s) := by
  cases d with
  | none => exact h
  | some d =>
      constructor
      · intro it hit
        rw [update_bids_eq] at hit
        rcases mem_appendCumAux hit with ⟨it', hit', c, rfl⟩
        exact goodLevel_append c (goodLevel_of_mem_side h.1 it' hit')
      · intro it hit
        rw [update_asks_eq] at hit
        rcases mem_appendCumAux hit with ⟨it', hit', c, rfl⟩
        exact goodLevel_append c (goodLevel_of_mem_side h.2 it' hit')

theorem reachable_invQ {s : OBState} (h : ReachableOB s) : InvQ s := by
  induction h with
  | init => exact ⟨by simp [initialState], by simp [initialState]⟩
  | step o d hs ih => exact invQ_update ih o d

theorem update_totalBidVolume_eq (o : OBOptions) (d : RawUpdate) (s : OBState) :
    (update o (some d) s).totalBidVolume
      = (match d.bids with
          | SideField.absent => s.bids
          | sf => processDepthData o sf true).foldl
          (fun sum it => jadd sum (quantityOf it)) (.num 0) := rfl

theorem update_totalAskVolume_eq (o : OBOptions) (d : RawUpdate) (s : OBState) :
    (update o (some d) s).totalAskVolume
      = (match d.asks with
          | SideField.absent => s.asks
          | sf => processDepthData o sf false).foldl
          (fun sum it => jadd sum (quantityOf it)) (.num 0) := rfl

theorem priceOf_append (it : List JNum) (c : JNum) (h : 0 < it.length) :
    priceOf (it ++ [c]) = priceOf it := by
  rw [priceOf, priceOf, List.getD_append _ _ _ _ h]

theorem jsSliceTo_sublist {α : Type} (n : ℤ) (l : List α) :
    List.Sublist (jsSliceTo n l) l := by
  rw [jsSliceTo]
  split
  · exact List.take_sublist _ _
  · exact List.take_sublist _ _

theorem calculateStats_asks_eq (s : OBState) :
    (calculateStats s).asks = appendCumAux (.num 0) s.asks := rfl

theorem calculateStats_bids_eq (s : OBState) :
    (calculateStats s).bids = appendCumAux (.num 0) s.bids := rfl

theorem calculateStats_spread_spec (s : OBState)
    (hB : ∀ it ∈ s.bids, GoodLevel it) (hA : ∀ it ∈ s.asks, GoodLevel it) :
    ((calculateStats s).asks ≠ [] → (calculateStats s).bids ≠ [] →
      (calculateStats s).spreadValue
        = jsub (priceOf ((calculateStats s).asks.headD []))
            (priceOf ((calculateStats s).bids.headD [])) ∧
      (calculateStats s).spreadPercent
        = jmul (jdiv (calculateStats s).spreadValue
            (priceOf ((calculateStats s).asks.headD []))) (.num 100)) ∧
    (((calculateStats s).asks = [] ∨ (calculateStats s).bids = []) →
      (calculateStats s).spreadValue = .num 0 ∧ (calculateStats s).spreadPercent = .num 0) := by
  rcases hsa : s.asks with _ | ⟨a0, ar⟩
  · constructor
    · intro hne _
      exact absurd (by rw [calculateStats_asks_eq, hsa]; rfl) hne
    · intro _
      constructor
      · rw [calculateStats_spreadValue, hsa]; simp
      · rw [calculateStats_spreadPercent, hsa]; simp
  · rcases hsb : s.bids with _ | ⟨b0, br⟩
    · constructor
      · intro _ hne
        exact absurd (by rw [calculateStats_bids_eq, hsb]; rfl) hne
      · intro _
        constructor
        · rw [calculateStats_spreadValue, hsb]; simp
        · rw [calculateStats_spreadPercent, hsb]; simp
    · have ha0 : GoodLevel a0 := hA a0 (by rw [hsa]; exact List.mem_cons_self _ _)
      have hb0 : GoodLevel b0 := hB b0 (by rw [hsb]; exact List.mem_cons_self _ _)
      have hpa : priceOf ((calculateStats s).asks.headD []) = priceOf (s.asks.headD []) := by
        rw [calculateStats_asks_eq, hsa, appendCumAux]
        exact priceOf_append a0 _ (by have := goodLevel_length ha0; omega)
      have hpb : priceOf ((calculateStats s).bids.headD []) = priceOf (s.bids.headD []) := by
        rw [calculateStats_bids_eq, hsb, appendCumAux]
        exact priceOf_append b0 _ (by have := goodLevel_length hb0; omega)
      have hcond : 0 < s.asks.length ∧ 0 < s.bids.length := by
        rw [hsa, hsb]; simp
      constructor
      · intro _ _
        constructor
        · rw [calculateStats_spreadValue, if_pos hcond, hpa, hpb]
        · rw [calculateStats_spreadPercent, if_pos hcond,
            calculateStats_spreadValue, if_pos hcond, hpa]
      · intro hor
        exfalso
        rcases hor with h | h
        · rw [calculateStats_asks_eq, hsa, appendCumAux] at h
          simp at h
        · rw [calculateStats_bids_eq, hsb, appendCumAux] at h
          simp at h

/-! ### Trade-history facts -/

theorem addTrade_dir_eq (maxRows : ℕ) (tr : RawTrade) (s : THState) :
    (addTrade maxRows (some tr) s).2
      = renderDirection (match s.trades with
          | [] => none
          | tp :: _ => some tp) (getTradePrice tr) := rfl

theorem addTrade_trades_cons (maxRows : ℕ) (hmr : 1 ≤ maxRows) (tr : RawTrade)
    (s : THState) :
    ∃ r, ((addTrade maxRows (some tr) s).1).trades = getTradePrice tr :: r := by
  show ∃ r,
    (if maxRows < (getTradePrice tr :: s.trades).length
      then (getTradePrice tr :: s.trades).dropLast
      else getTradePrice tr :: s.trades) = getTradePrice tr :: r
  rcases s.trades with _ | ⟨t, rest⟩
  · rw [if_neg (by simp; omega)]
    exact ⟨[], rfl⟩
  · by_cases h : maxRows < (getTradePrice tr :: t :: rest).length
    · rw [if_pos h]
      exact ⟨(t :: rest).dropLast, rfl⟩
    · rw [if_neg h]
      exact ⟨t :: rest, rfl⟩

/-! ### The claims -/

/-- Claim C1, counterexample: the ladder builder's filter only checks
`item[1] > 0`, so a raw entry whose price parses to NaN but whose quantity
is 1 does appear in the built ladder, contradicting the claim that a
NaN-price entry never appears. -/
theorem C1_counterexample :
    priceOf (normalizeEntry (qtyOnlyEntry 1)) = JNum.nan ∧
    (update defaultOptions (some nanPriceUpdate) initialState).bids
      = [[JNum.nan, JNum.num 1, JNum.num 1]] :=
  ⟨by decide, by decide⟩

/-- Claim C1, amended: every level of a built ladder passes the JavaScript
comparison `quantity > 0` — so a missing, non-numeric, NaN, zero or
negative quantity never appears — but NaN prices and infinite quantities
are not filtered out. -/
theorem C1_amended_quantity_filter (o : OBOptions) (entries : List RawEntry)
    (isBids : Bool) (item : List JNum)
    (h : item ∈ processDepthData o (.arr entries) isBids) :
    jgt (quantityOf item) (.num 0) = true :=
  List.of_mem_filter (p := fun it => jgt (quantityOf it) (JNum.num 0))
    (mem_filtered_of_mem_processDepthData h)

/-- Witness for the amended claim C1 at a concrete input. -/
theorem C1_amended_quantity_filter_witness :
    ([JNum.num 100, JNum.num 1]
        ∈ processDepthData defaultOptions (.arr [pairEntry 100 1]) true) ∧
    jgt (quantityOf [JNum.num 100, JNum.num 1]) (.num 0) = true :=
  ⟨by decide, C1_amended_quantity_filter defaultOptions [pairEntry 100 1] true
    [JNum.num 100, JNum.num 1] (by decide)⟩

/-- The concrete spread example of the specification holds: bids
`[[100,1],[99,2]]` and asks `[[101,1],[102,2]]` give spread 1 and relative
spread 100/101 (≈ 0.990 percent). -/
theorem exampleUpdate_spread_values :
    (update defaultOptions (some exampleUpdate) initialState).spreadValue = JNum.num 1 ∧
    (update defaultOptions (some exampleUpdate) initialState).spreadPercent
      = JNum.num (mkRat 100 101) :=
  ⟨by decide, by decide⟩

/-- Claim C2, counterexample: `_calculateStats` has no guard on a zero best
ask price; with bids `[[1,1]]` and asks `[[0,1]]` the stored spreadPercent
is -Infinity, not the claimed 0. -/
theorem C2_counterexample :
    priceOf ((update defaultOptions (some zeroAskUpdate) initialState).asks.headD [])
      = JNum.num 0 ∧
    (update defaultOptions (some zeroAskUpdate) initialState).spreadPercent
      = JNum.ninf :=
  ⟨by decide, by decide⟩

/-- Claim C2, amended: after an update applied to a reachable state, when
both ladders are non-empty the spread is best ask minus best bid and the
relative spread is spread divided by best ask times 100 with no zero
guard (IEEE semantics, so a zero best ask yields an infinity or NaN); when
either ladder is empty both statistics are 0. -/
theorem C2_amended_spread_stats (o : OBOptions) (d : RawUpdate) (s : OBState)
    (hs : ReachableOB s) :
    ((update o (some d) s).asks ≠ [] → (update o (some d) s).bids ≠ [] →
      (update o (some d) s).spreadValue
        = jsub (priceOf ((update o (some d) s).asks.headD []))
            (priceOf ((update o (some d) s).bids.headD [])) ∧
      (update o (some d) s).spreadPercent
        = jmul (jdiv (update o (some d) s).spreadValue
            (priceOf ((update o (some d) s).asks.headD []))) (.num 100)) ∧
    (((update o (some d) s).asks = [] ∨ (update o (some d) s).bids = []) →
      (update o (some d) s).spreadValue = .num 0 ∧
      (update o (some d) s).spreadPercent = .num 0) := by
  have hinv := reachable_invQ hs
  exact calculateStats_spread_spec _
    (goodLevel_of_mem_side hinv.1) (goodLevel_of_mem_side hinv.2)

/-- Witness for the amended claim C2 at the concrete spread example. -/
theorem C2_amended_spread_stats_witness :
    ReachableOB initialState ∧
    (((update defaultOptions (some exampleUpdate) initialState).asks ≠ [] →
      (update defaultOptions (some exampleUpdate) initialState).bids ≠ [] →
      (update defaultOptions (some exampleUpdate) initialState).spreadValue
        = jsub (priceOf ((update defaultOptions (some exampleUpdate) initialState).asks.headD []))
            (priceOf ((update defaultOptions (some exampleUpdate) initialState).bids.headD [])) ∧
      (update defaultOptions (some exampleUpdate) initialState).spreadPercent
        = jmul (jdiv (update defaultOptions (some exampleUpdate) initialState).spreadValue
            (priceOf ((update defaultOptions (some exampleUpdate) initialState).asks.headD [])))
            (.num 100)) ∧
    (((update defaultOptions (some exampleUpdate) initialState).asks = [] ∨
      (update defaultOptions (some exampleUpdate) initialState).bids = []) →
      (update defaultOptions (some exampleUpdate) initialState).spreadValue = .num 0 ∧
      (update defaultOptions (some exampleUpdate) initialState).spreadPercent = .num 0)) :=
  ⟨ReachableOB.init,
    C2_amended_spread_stats defaultOptions exampleUpdate initialState ReachableOB.init⟩

/-- Claim C3, counterexample: a partial update does retain the omitted
side's prices and quantities, but `_calculateStats` appends the running
total to the retained levels again, so the stored asks ladder is not
structurally equal to the ladder held before the update (a level grows
from 3 slots to 4). -/
theorem C3_counterexample :
    (update defaultOptions (some partialSetupUpdate) initialState).asks
      = [[JNum.num 2, JNum.num 1, JNum.num 1]] ∧
    (update defaultOptions (some partialBidsUpdate)
        (update defaultOptions (some partialSetupUpdate) initialState)).asks
      = [[JNum.num 2, JNum.num 1, JNum.num 1, JNum.num 1]] ∧
    (update defaultOptions (some partialBidsUpdate)
        (update defaultOptions (some partialSetupUpdate) initialState)).asks
      ≠ (update defaultOptions (some partialSetupUpdate) initialState).asks :=
  ⟨by decide, by decide, by decide⟩

/-- Claim C3, amended: an update whose raw object omits either side's
array (the asks when `omittedAsks` is true, the bids otherwise) keeps the
omitted ladder's length and every retained level as a prefix of the new
level (prices, quantities and previously attached cumulatives are
untouched) while exactly one more running-total slot is appended; the side
that is present as an array is rebuilt from the raw entries. -/
theorem C3_amended_omitted_side (o : OBOptions) (d : RawUpdate) (s : OBState)
    (i : ℕ) (es : List RawEntry) (omittedAsks : Bool)
    (hAbsent : (if omittedAsks then d.asks else d.bids) = SideField.absent)
    (hi : i < (if omittedAsks then s.asks else s.bids).length)
    (hPresent : (if omittedAsks then d.bids else d.asks) = SideField.arr es) :
    (if omittedAsks then (update o (some d) s).asks
      else (update o (some d) s).bids).length
      = (if omittedAsks then s.asks else s.bids).length ∧
    (∃ c, (if omittedAsks then (update o (some d) s).asks
        else (update o (some d) s).bids).getD i []
      = (if omittedAsks then s.asks else s.bids).getD i [] ++ [c]) ∧
    (if omittedAsks then (update o (some d) s).bids
      else (update o (some d) s).asks)
      = appendCumAux (.num 0) (processDepthData o (.arr es) omittedAsks) := by
  cases omittedAsks
  · have h1 : (update o (some d) s).bids = appendCumAux (.num 0) s.bids := by
      rw [update_bids_eq, show d.bids = SideField.absent from hAbsent]
    refine ⟨?_, ?_, ?_⟩
    · show (update o (some d) s).bids.length = s.bids.length
      rw [h1, appendCumAux_length]
    · show ∃ c, (update o (some d) s).bids.getD i [] = s.bids.getD i [] ++ [c]
      rw [h1]
      exact appendCumAux_getD s.bids (.num 0) i hi
    · show (update o (some d) s).asks
        = appendCumAux (.num 0) (processDepthData o (.arr es) false)
      rw [update_asks_eq, show d.asks = SideField.arr es from hPresent]
  · have h1 : (update o (some d) s).asks = appendCumAux (.num 0) s.asks := by
      rw [update_asks_eq, show d.asks = SideField.absent from hAbsent]
    refine ⟨?_, ?_, ?_⟩
    · show (update o (some d) s).asks.length = s.asks.length
      rw [h1, appendCumAux_length]
    · show ∃ c, (update o (some d) s).asks.getD i [] = s.asks.getD i [] ++ [c]
      rw [h1]
      exact appendCumAux_getD s.asks (.num 0) i hi
    · show (update o (some d) s).bids
        = appendCumAux (.num 0) (processDepthData o (.arr es) true)
      rw [update_bids_eq, show d.bids = SideField.arr es from hPresent]

/-- Witness for the amended claim C3 at the concrete asks-omitted partial
update of the specification's test bullet. -/
theorem C3_amended_omitted_side_witness :
    partialBidsUpdate.asks = SideField.absent ∧
    0 < (update defaultOptions (some partialSetupUpdate) initialState).asks.length ∧
    partialBidsUpdate.bids = SideField.arr [pairEntry 50 1] ∧
    ((update defaultOptions (some partialBidsUpdate)
        (update defaultOptions (some partialSetupUpdate) initialState)).asks.length
      = (update defaultOptions (some partialSetupUpdate) initialState).asks.length ∧
    (∃ c, (update defaultOptions (some partialBidsUpdate)
        (update defaultOptions (some partialSetupUpdate) initialState)).asks.getD 0 []
      = (update defaultOptions (some partialSetupUpdate) initialState).asks.getD 0 [] ++ [c]) ∧
    (update defaultOptions (some partialBidsUpdate)
        (update defaultOptions (some partialSetupUpdate) initialState)).bids
      = appendCumAux (.num 0) (processDepthData defaultOptions (.arr [pairEntry 50 1]) true)) :=
  ⟨rfl, by decide, rfl,
    C3_amended_omitted_side defaultOptions partialBidsUpdate
      (update defaultOptions (some partialSetupUpdate) initialState) 0 [pairEntry 50 1]
      true rfl (by decide) rfl⟩

/-- Claim C4, counterexample: after recording 100 then 105 the rendered
direction is up, but recording 105 again renders no direction class at
all — the direction is not "unchanged from the prior call" as claimed. -/
theorem C4_counterexample :
    (addTrade 50 (some trade105) (addTrade 50 (some trade100) thInitial).1).2
      = some PriceDir.up ∧
    (addTrade 50 (some trade105)
        (addTrade 50 (some trade105) (addTrade 50 (some trade100) thInitial).1).1).2
      = none ∧
    (none : Option PriceDir) ≠ some PriceDir.up :=
  ⟨by decide, by decide, by decide⟩

/-- Claim C4, amended: the direction rendered for a recorded trade compares
its price with the previously recorded price (which is always the head of
the stored trades, so the new price does become the reference for the next
call): strictly greater renders up, strictly less renders down, and an
equal price (or no prior trade) renders no direction — not the prior
call's direction. -/
theorem C4_amended_direction (maxRows : ℕ) (hmr : 1 ≤ maxRows) (s : THState)
    (tr tr' : RawTrade) :
    (addTrade maxRows (some tr') ((addTrade maxRows (some tr) s).1)).2
      = (if jgt (getTradePrice tr') (getTradePrice tr) then some PriceDir.up
         else if jlt (getTradePrice tr') (getTradePrice tr) then some PriceDir.down
         else none) := by
  obtain ⟨r, hr⟩ := addTrade_trades_cons maxRows hmr tr s
  rw [addTrade_dir_eq, hr]
  rfl

/-- Witness for the amended claim C4 at the concrete 100 / 105 trades. -/
theorem C4_amended_direction_witness :
    1 ≤ 50 ∧
    (addTrade 50 (some trade105) ((addTrade 50 (some trade100) thInitial).1)).2
      = (if jgt (getTradePrice trade105) (getTradePrice trade100) then some PriceDir.up
         else if jlt (getTradePrice trade105) (getTradePrice trade100) then some PriceDir.down
         else none) :=
  ⟨by decide, C4_amended_direction 50 (by decide) thInitial trade100 trade105⟩

/-- Claim C5, counterexample: `updateOptions` performs no coercion of
`maxRows <= 0`; after configuring `maxRows := 0` an update carrying the
valid level `[1,1]` builds an empty ladder, not a ladder capped at one
level as the claimed coercion to 1 would give. -/
theorem C5_counterexample :
    (updateOptions defaultOptions ⟨some 0⟩).maxRows = 0 ∧
    jgt (quantityOf (normalizeEntry (pairEntry 1 1))) (JNum.num 0) = true ∧
    (update (updateOptions defaultOptions ⟨some 0⟩) (some singleBidUpdate)
        initialState).bids = [] :=
  ⟨by decide, by decide, by decide⟩

/-- Claim C5, amended: `updateOptions` stores `maxRows` unchanged (no
minimum-of-1 coercion), and for a non-negative configured value every
built ladder has at most `maxRows` levels — in particular `maxRows = 0`
yields empty ladders.  (A negative value follows the JavaScript
`slice(0, n)` semantics and drops levels from the far end instead.) -/
theorem C5_amended_truncation (o : OBOptions) (m : ℤ) (entries : List RawEntry)
    (isBids : Bool) (hm : 0 ≤ m) :
    (updateOptions o ⟨some m⟩).maxRows = m ∧
    (processDepthData ⟨m⟩ (.arr entries) isBids).length ≤ m.toNat := by
  refine ⟨rfl, ?_⟩
  have hmx : (⟨m⟩ : OBOptions).maxRows = m := rfl
  rw [processDepthData, jsSliceTo, hmx, if_neg (not_lt.mpr hm)]
  exact List.length_take_le _ _

/-- Witness for the amended claim C5 at `maxRows = 0`. -/
theorem C5_amended_truncation_witness :
    (0 : ℤ) ≤ 0 ∧
    ((updateOptions defaultOptions ⟨some 0⟩).maxRows = 0 ∧
      (processDepthData ⟨0⟩ (.arr [pairEntry 1 1]) true).length ≤ (0 : ℤ).toNat) :=
  ⟨by decide, C5_amended_truncation defaultOptions 0 [pairEntry 1 1] true (by decide)⟩

/-- Claim C6: the stored `lastUpdateId` after an update with a non-negative
numeric incoming id is the maximum of the previous value and the incoming
id (so it never decreases), and the built ladders do not depend on the
incoming id at all — an update whose id is not newer is still processed. -/
theorem C6_lastUpdateId_max (o : OBOptions) (d : RawUpdate) (s : OBState)
    (q q0 : ℚ) (id' : Option JNum)
    (hq : d.lastUpdateId = some (.num q)) (hq0 : s.lastUpdateId = .num q0)
    (hqpos : 0 ≤ q) (hq0pos : 0 ≤ q0) :
    (update o (some d) s).lastUpdateId = .num (max q0 q) ∧
    (update o (some { d with lastUpdateId := id' }) s).bids
      = (update o (some d) s).bids ∧
    (update o (some { d with lastUpdateId := id' }) s).asks
      = (update o (some d) s).asks := by
  refine ⟨?_, rfl, rfl⟩
  rw [update_lastUpdateId_eq, hq, hq0]
  by_cases h : q0 < q
  · have hqz : q ≠ 0 := by
      intro h0
      rw [h0] at h
      exact absurd h (not_lt.mpr hq0pos)
    simp [JNum.truthy, jgt, jlt, hqz, h, max_eq_right (le_of_lt h)]
  · simp [JNum.truthy, jgt, jlt, h, max_eq_left (le_of_not_lt h)]

/-- Witness for claim C6 at a concrete update with id 7 over the initial
state (id 0). -/
theorem C6_lastUpdateId_max_witness :
    idUpdate.lastUpdateId = some (JNum.num 7) ∧
    initialState.lastUpdateId = JNum.num 0 ∧
    (0 : ℚ) ≤ 7 ∧
    ((update defaultOptions (some idUpdate) initialState).lastUpdateId
        = JNum.num (max 0 7) ∧
      (update defaultOptions (some { idUpdate with lastUpdateId := none })
          initialState).bids
        = (update defaultOptions (some idUpdate) initialState).bids ∧
      (update defaultOptions (some { idUpdate with lastUpdateId := none })
          initialState).asks
        = (update defaultOptions (some idUpdate) initialState).asks) :=
  ⟨rfl, rfl, by decide,
    C6_lastUpdateId_max defaultOptions idUpdate initialState 7 0 none rfl rfl
      (by decide) (by decide)⟩

/-- Claim C7, counterexample: NaN prices survive the quantity filter and
the comparator treats a NaN difference as a tie, so with raw asks
`[{q:1},[3,1]]` the built ladder starts with a NaN-price level and the
ordering `asks[0].price <= asks[1].price` fails. -/
theorem C7_counterexample :
    (update defaultOptions (some nanAskSortUpdate) initialState).asks
      = [[JNum.nan, JNum.num 1, JNum.num 1], [JNum.num 3, JNum.num 1, JNum.num 2]] ∧
    jsle (priceOf ((update defaultOptions (some nanAskSortUpdate) initialState).asks.getD 0 []))
      (priceOf ((update defaultOptions (some nanAskSortUpdate) initialState).asks.getD 1 []))
      = false :=
  ⟨by decide, by decide⟩

/-- Claim C7, amended: when every raw entry's price parses to a non-NaN
value, the built bid ladder is pairwise non-increasing and the ask ladder
pairwise non-decreasing by price (which implies the adjacent-index form of
the claim), and the sort step is stable: for any price, the levels at that
price appear in the sorted array in the same order as in the filtered
input. -/
theorem C7_amended_sort_invariant (o : OBOptions) (entries : List RawEntry)
    (p : JNum) (hnn : ∀ e ∈ entries, priceOf (normalizeEntry e) ≠ JNum.nan) :
    List.Pairwise (fun x y => jsle (priceOf y) (priceOf x) = true)
      (processDepthData o (.arr entries) true) ∧
    List.Pairwise (fun x y => jsle (priceOf x) (priceOf y) = true)
      (processDepthData o (.arr entries) false) ∧
    (jsSort (levelLe true) ((entries.map normalizeEntry).filter
        (fun it => jgt (quantityOf it) (.num 0)))).filter
        (fun x => decide (priceOf x = p))
      = ((entries.map normalizeEntry).filter
          (fun it => jgt (quantityOf it) (.num 0))).filter
          (fun x => decide (priceOf x = p)) ∧
    (jsSort (levelLe false) ((entries.map normalizeEntry).filter
        (fun it => jgt (quantityOf it) (.num 0)))).filter
        (fun x => decide (priceOf x = p))
      = ((entries.map normalizeEntry).filter
          (fun it => jgt (quantityOf it) (.num 0))).filter
          (fun x => decide (priceOf x = p)) := by
  have hPF : ∀ x ∈ (entries.map normalizeEntry).filter
      (fun it => jgt (quantityOf it) (.num 0)), priceOf x ≠ JNum.nan := by
    intro x hx
    rcases List.mem_map.mp (List.mem_of_mem_filter hx) with ⟨e, he, rfl⟩
    exact hnn e he
  have hmem : ∀ isBids : Bool, ∀ x ∈ processDepthData o (.arr entries) isBids,
      priceOf x ≠ JNum.nan := by
    intro isBids x hx
    exact hPF x (mem_filtered_of_mem_processDepthData hx)
  refine ⟨?_, ?_, ?_, ?_⟩
  · have h1 := pairwise_jsSort (levelLe true) (fun x => priceOf x ≠ JNum.nan)
      (levelLe_trans true) (levelLe_total true) hPF
    have h2 : List.Pairwise (fun x y => levelLe true x y = true)
        (processDepthData o (.arr entries) true) :=
      h1.sublist (jsSliceTo_sublist _ _)
    exact h2.imp_of_mem (fun {x y} hx hy hR => by
      rwa [levelLe_true_eq (hmem true x hx) (hmem true y hy)] at hR)
  · have h1 := pairwise_jsSort (levelLe false) (fun x => priceOf x ≠ JNum.nan)
      (levelLe_trans false) (levelLe_total false) hPF
    have h2 : List.Pairwise (fun x y => levelLe false x y = true)
        (processDepthData o (.arr entries) false) :=
      h1.sublist (jsSliceTo_sublist _ _)
    exact h2.imp_of_mem (fun {x y} hx hy hR => by
      rwa [levelLe_false_eq (hmem false x hx) (hmem false y hy)] at hR)
  · exact filter_jsSort (levelLe true) (fun x => priceOf x ≠ JNum.nan) priceOf
      (levelLe_trans true) (levelLe_total true)
      (fun x y h => levelLe_of_price_eq true h) hPF
  · exact filter_jsSort (levelLe false) (fun x => priceOf x ≠ JNum.nan) priceOf
      (levelLe_trans false) (levelLe_total false)
      (fun x y h => levelLe_of_price_eq false h) hPF

/-- Witness for the amended claim C7 at a concrete two-level ask side. -/
theorem C7_amended_sort_invariant_witness :
    (∀ e ∈ [pairEntry 101 1, pairEntry 102 2],
      priceOf (normalizeEntry e) ≠ JNum.nan) ∧
    (List.Pairwise (fun x y => jsle (priceOf y) (priceOf x) = true)
      (processDepthData defaultOptions (.arr [pairEntry 101 1, pairEntry 102 2]) true) ∧
    List.Pairwise (fun x y => jsle (priceOf x) (priceOf y) = true)
      (processDepthData defaultOptions (.arr [pairEntry 101 1, pairEntry 102 2]) false) ∧
    (jsSort (levelLe true) (([pairEntry 101 1, pairEntry 102 2].map normalizeEntry).filter
        (fun it => jgt (quantityOf it) (.num 0)))).filter
        (fun x => decide (priceOf x = JNum.num 101))
      = (([pairEntry 101 1, pairEntry 102 2].map normalizeEntry).filter
          (fun it => jgt (quantityOf it) (.num 0))).filter
          (fun x => decide (priceOf x = JNum.num 101)) ∧
    (jsSort (levelLe false) (([pairEntry 101 1, pairEntry 102 2].map normalizeEntry).filter
        (fun it => jgt (quantityOf it) (.num 0)))).filter
        (fun x => decide (priceOf x = JNum.num 101))
      = (([pairEntry 101 1, pairEntry 102 2].map normalizeEntry).filter
          (fun it => jgt (quantityOf it) (.num 0))).filter
          (fun x => decide (priceOf x = JNum.num 101))) :=
  ⟨by decide,
    C7_amended_sort_invariant defaultOptions [pairEntry 101 1, pairEntry 102 2]
      (JNum.num 101) (by decide)⟩

/-- Claim C8: after any update applied to a reachable state, the sequence
of most-recently-attached cumulatives of each ladder is non-decreasing, and
its last value (0 for an empty ladder) equals the side's reported total
volume — which the source computes as the reduce-sum of the quantities, so
the last cumulative equals the sum of all quantities in the ladder. -/
theorem C8_cumulative_invariants (o : OBOptions) (d : RawUpdate) (s : OBState)
    (hs : ReachableOB s) :
    List.Chain' (fun a b => jsle a b = true)
      ((update o (some d) s).bids.map lastOf) ∧
    List.Chain' (fun a b => jsle a b = true)
      ((update o (some d) s).asks.map lastOf) ∧
    ((update o (some d) s).bids.map lastOf).getLastD (.num 0)
      = (update o (some d) s).totalBidVolume ∧
    ((update o (some d) s).asks.map lastOf).getLastD (.num 0)
      = (update o (some d) s).totalAskVolume := by
  have hinv := reachable_invQ hs
  have hB := @goodLevel_of_mem_side o d.bids s.bids true hinv.1
  have hA := @goodLevel_of_mem_side o d.asks s.asks false hinv.2
  have hnn : NonNegJ (.num 0) := Or.inr ⟨0, le_refl 0, rfl⟩
  refine ⟨?_, ?_, ?_, ?_⟩
  · rw [update_bids_eq, map_lastOf_appendCumAux]
    exact chain'_cumVals hB hnn
  · rw [update_asks_eq, map_lastOf_appendCumAux]
    exact chain'_cumVals hA hnn
  · rw [update_bids_eq, map_lastOf_appendCumAux, cumVals_getLastD,
      update_totalBidVolume_eq]
  · rw [update_asks_eq, map_lastOf_appendCumAux, cumVals_getLastD,
      update_totalAskVolume_eq]

/-- Witness for claim C8 at the concrete spread example over the initial
state. -/
theorem C8_cumulative_invariants_witness :
    ReachableOB initialState ∧
    (List.Chain' (fun a b => jsle a b = true)
      ((update defaultOptions (some exampleUpdate) initialState).bids.map lastOf) ∧
    List.Chain' (fun a b => jsle a b = true)
      ((update defaultOptions (some exampleUpdate) initialState).asks.map lastOf) ∧
    ((update defaultOptions (some exampleUpdate) initialState).bids.map lastOf).getLastD
        (.num 0)
      = (update defaultOptions (some exampleUpdate) initialState).totalBidVolume ∧
    ((update defaultOptions (some exampleUpdate) initialState).asks.map lastOf).getLastD
        (.num 0)
      = (update defaultOptions (some exampleUpdate) initialState).totalAskVolume) :=
  ⟨ReachableOB.init,
    C8_cumulative_invariants defaultOptions exampleUpdate initialState ReachableOB.init⟩

/-- Claim C9: re-applying an identical raw update that carries both a bids
array and an asks array produces structurally equal ladders, spread,
relative spread and total volumes, because both sides are rebuilt from the
raw arrays alone. -/
theorem C9_idempotent_reapplication (o : OBOptions) (d : RawUpdate) (s : OBState)
    (bs asEntries : List RawEntry)
    (hb : d.bids = SideField.arr bs) (ha : d.asks = SideField.arr asEntries) :
    (update o (some d) (update o (some d) s)).bids = (update o (some d) s).bids ∧
    (update o (some d) (update o (some d) s)).asks = (update o (some d) s).asks ∧
    (update o (some d) (update o (some d) s)).spreadValue
      = (update o (some d) s).spreadValue ∧
    (update o (some d) (update o (some d) s)).spreadPercent
      = (update o (some d) s).spreadPercent ∧
    (update o (some d) (update o (some d) s)).totalBidVolume
      = (update o (some d) s).totalBidVolume ∧
    (update o (some d) (update o (some d) s)).totalAskVolume
      = (update o (some d) s).totalAskVolume := by
  obtain ⟨lid, db, da⟩ := d
  obtain rfl : db = SideField.arr bs := hb
  obtain rfl : da = SideField.arr asEntries := ha
  exact ⟨rfl, rfl, rfl, rfl, rfl, rfl⟩

/-- Witness for claim C9 at the concrete spread example. -/
theorem C9_idempotent_reapplication_witness :
    exampleUpdate.bids = SideField.arr [pairEntry 100 1, pairEntry 99 2] ∧
    exampleUpdate.asks = SideField.arr [pairEntry 101 1, pairEntry 102 2] ∧
    ((update defaultOptions (some exampleUpdate)
        (update defaultOptions (some exampleUpdate) initialState)).bids
      = (update defaultOptions (some exampleUpdate) initialState).bids ∧
    (update defaultOptions (some exampleUpdate)
        (update defaultOptions (some exampleUpdate) initialState)).asks
      = (update defaultOptions (some exampleUpdate) initialState).asks ∧
    (update defaultOptions (some exampleUpdate)
        (update defaultOptions (some exampleUpdate) initialState)).spreadValue
      = (update defaultOptions (some exampleUpdate) initialState).spreadValue ∧
    (update defaultOptions (some exampleUpdate)
        (update defaultOptions (some exampleUpdate) initialState)).spreadPercent
      = (update defaultOptions (some exampleUpdate) initialState).spreadPercent ∧
    (update defaultOptions (some exampleUpdate)
        (update defaultOptions (some exampleUpdate) initialState)).totalBidVolume
      = (update defaultOptions (some exampleUpdate) initialState).totalBidVolume ∧
    (update defaultOptions (some exampleUpdate)
        (update defaultOptions (some exampleUpdate) initialState)).totalAskVolume
      = (update defaultOptions (some exampleUpdate) initialState).totalAskVolume) :=
  ⟨rfl, rfl,
    C9_idempotent_reapplication defaultOptions exampleUpdate initialState
      [pairEntry 100 1, pairEntry 99 2] [pairEntry 101 1, pairEntry 102 2] rfl rfl⟩

/-- Claim C10: calling `update` with a null or undefined argument returns
before touching anything, so the whole stored state — ladders, last update
id and all four statistics — is exactly as before. -/
theorem C10_null_update_noop (o : OBOptions) (s : OBState) : update o none s = s := rfl
